import Mathlib

/-
  Shallow embedding of src/malloctrace.cpp (heaptrack's malloctrace
  interposition library).

  The library intercepts malloc/free/realloc/calloc/posix_memalign/
  aligned_alloc/valloc, always forwards to the "real" allocator (modelled
  here as oracle arguments, since the real allocator is an external
  collaborator resolved via dlsym), and — when the thread-local
  `in_handler` guard is not engaged — records events to the thread's
  output stream.

  Machine integers (size_t, unw_word_t, pointers) are modelled as Nat with
  explicit reduction modulo 2^64 where the C code can overflow
  (the `num*size` multiplication in calloc).  Output written via fprintf
  is modelled as Strings built with glibc's conversion semantics:
  %lu is unsigned decimal, %ld is signed (two's-complement) decimal,
  %lx is lowercase hex, %p is "0x"+lowercase hex for non-null and
  "(nil)" for the null pointer, %s is the string itself.
-/

namespace MallocTrace

/-- Lowercase hexadecimal rendering of a machine word, as printed by
the %lx conversion. -/
def hexStr (n : Nat) : String :=
  String.mk (Nat.toDigits 16 n)

/-- Decimal rendering of a 64-bit value interpreted as a signed long,
as printed by the %ld conversion applied to a size_t argument. -/
def decSigned64 (v : Nat) : String :=
  if v < 2 ^ 63 then toString v else "-" ++ toString (2 ^ 64 - v)

/-- Pointer rendering of the %p conversion (glibc): `0x` followed by
lowercase hex digits, or `(nil)` for the null pointer. -/
def ptrStr (p : Nat) : String :=
  if p = 0 then "(nil)" else "0x" ++ hexStr p

/-- The C struct `IPCacheEntry { size_t id; bool skip; bool stop; }`. -/
structure IPCacheEntry where
  id : Nat
  skip : Bool
  stop : Bool
deriving DecidableEq

/-- One stack frame as seen by the unwinder: its instruction pointer
(`unw_get_reg(.., UNW_REG_IP, ..)`) together with the symbol name and
byte offset that `unw_get_proc_name` resolves for that frame. -/
structure Frame where
  ip : Nat
  name : String
  offset : Nat
deriving DecidableEq

/-- The per-thread walk state used by `print_caller`: the
`unordered_map<unw_word_t, IPCacheEntry> ipCache` (modelled as an
association list with most-recent insertion in front) together with the
global `atomic<size_t> next_cache_id` counter. -/
structure WalkState where
  ipCache : List (Nat × IPCacheEntry)
  next_cache_id : Nat
deriving DecidableEq

/-- Lookup `ipCache.find(ip)`. -/
def cacheFind : List (Nat × IPCacheEntry) → Nat → Option IPCacheEntry
  | [], _ => none
  | (k, e) :: rest, ip => if k = ip then some e else cacheFind rest ip

/-- The skip classification from print_caller:
`name[0]=='_' && name[1]=='Z' && name[2]=='n' && name[4]=='m' &&
name[5]=='\0' && (name[3]=='w' || name[3]=='a')`, i.e. the resolved
name is exactly `_Znwm` (operator new) or `_Znam` (operator new[]). -/
def isSkipName (name : String) : Bool :=
  name == "_Znwm" || name == "_Znam"

/-- The stop symbols tested by print_caller:
`!strcmp(name, "main") || !strcmp(name, "_GLOBAL__sub_I_main")`. -/
def isStopName (name : String) : Bool :=
  name == "main" || name == "_GLOBAL__sub_I_main"

/-- One element written into a reference chain: either a full symbol
definition record (`%lu=%lx@%s+0x%lx;`, for a frame not yet in the
cache) or a cached reference record (`%lu;`). -/
inductive ChainElem where
  | symdef (id : Nat) (ip : Nat) (name : String) (offset : Nat)
  | ref (id : Nat)
deriving DecidableEq

/-- Rendering of one chain element exactly as the two fprintf calls in
print_caller produce it. -/
def renderElem : ChainElem → String
  | .symdef id ip name offset =>
      toString id ++ "=" ++ hexStr ip ++ "@" ++ name ++ "+0x" ++ hexStr offset ++ ";"
  | .ref id => toString id ++ ";"

/-- Concatenation of a reference chain, in emission order. -/
def chainStr (es : List ChainElem) : String :=
  String.join (es.map renderElem)

/-- The `while (unw_step(&cursor) > 0)` loop of print_caller, walking the
given frames innermost first.  On a cache miss the frame is classified,
assigned the next global id, inserted, and (unless skipped) a definition
record is emitted; on a hit the cached entry is used and (unless
skipped) a reference record is emitted; a stop entry breaks the loop. -/
def printCallerLoop : WalkState → List Frame → WalkState × List ChainElem
  | s, [] => (s, [])
  | s, f :: rest =>
    match cacheFind s.ipCache f.ip with
    | none =>
        let skip := isSkipName f.name
        let stop := !skip && isStopName f.name
        let id := s.next_cache_id
        let s' : WalkState := ⟨(f.ip, ⟨id, skip, stop⟩) :: s.ipCache, id + 1⟩
        let out : List ChainElem :=
          if skip then [] else [.symdef id f.ip f.name f.offset]
        if stop then (s', out)
        else
          let r := printCallerLoop s' rest
          (r.1, out ++ r.2)
    | some e =>
        let out : List ChainElem := if e.skip then [] else [.ref e.id]
        if e.stop then (s, out)
        else
          let r := printCallerLoop s rest
          (r.1, out ++ r.2)

/-- Function `print_caller`: the first two `unw_step` calls skip the two innermost
tracer frames (handleMalloc and the interception entry point); if either
step fails the function returns silently, otherwise the walk loop runs
on the remaining frames. -/
def print_caller (s : WalkState) (stack : List Frame) : WalkState × List ChainElem :=
  match stack with
  | _ :: _ :: rest => printCallerLoop s rest
  | _ => (s, [])

/-- The classification/insertion effect of processing one frame
(the state change performed by one iteration of the walk loop). -/
def stepState (s : WalkState) (f : Frame) : WalkState :=
  match cacheFind s.ipCache f.ip with
  | none =>
      ⟨(f.ip, ⟨s.next_cache_id, isSkipName f.name,
          !isSkipName f.name && isStopName f.name⟩) :: s.ipCache,
        s.next_cache_id + 1⟩
  | some _ => s

/-- The chain elements emitted while processing one frame. -/
def stepOut (s : WalkState) (f : Frame) : List ChainElem :=
  match cacheFind s.ipCache f.ip with
  | none =>
      if isSkipName f.name then []
      else [.symdef s.next_cache_id f.ip f.name f.offset]
  | some e => if e.skip then [] else [.ref e.id]

/-- Whether one iteration of the walk loop emits nothing for this frame. -/
def frameSkipped (s : WalkState) (f : Frame) : Bool :=
  match cacheFind s.ipCache f.ip with
  | none => isSkipName f.name
  | some e => e.skip

/-- Whether one iteration of the walk loop breaks after this frame. -/
def frameStopped (s : WalkState) (f : Frame) : Bool :=
  match cacheFind s.ipCache f.ip with
  | none => !isSkipName f.name && isStopName f.name
  | some e => e.stop

/-- Event writer `handleMalloc(ptr, size)`: writes `+%ld:%p ` (note the trailing
space), then the reference chain via print_caller, then a newline.  The
returned string is the complete record appended to the thread's file. -/
def handleMalloc (s : WalkState) (stack : List Frame) (ptr size : Nat) :
    WalkState × String :=
  let r := print_caller s stack
  (r.1, "+" ++ decSigned64 size ++ ":" ++ ptrStr ptr ++ " " ++ chainStr r.2 ++ "\n")

/-- Event writer `handleFree(ptr)`: writes `-%p` and a newline, no reference chain. -/
def handleFree (ptr : Nat) : String :=
  "-" ++ ptrStr ptr ++ "\n"

/-- Per-thread interposer state: the thread-local `in_handler` guard flag
and the thread's walk state (ipCache plus the global id counter). -/
structure TState where
  in_handler : Bool
  walk : WalkState
deriving DecidableEq

/-- Interposed `malloc(size)`.  `realRet` is the pointer produced by the
already-resolved `real_malloc(size)` call; `stack` is the thread's
current call stack as the unwinder yields it.  Returns the caller's
result, the new thread state and the list of records written. -/
def malloc (realRet : Nat) (size : Nat) (stack : List Frame) (st : TState) :
    Nat × TState × List String :=
  if st.in_handler then (realRet, st, [])
  else
    let r := handleMalloc st.walk stack realRet size
    (realRet, ⟨false, r.1⟩, [r.2])

/-- Interposed `free(ptr)` (returns void, modelled as Unit). -/
def free (ptr : Nat) (st : TState) : Unit × TState × List String :=
  if st.in_handler then ((), st, [])
  else ((), ⟨false, st.walk⟩, [handleFree ptr])

/-- Interposed `realloc(ptr, size)`.  `realRet` is the pointer returned
by `real_realloc(ptr, size)`.  When tracing, `handleFree(ptr)` runs
first, then `handleMalloc(ret, size)`. -/
def realloc (realRet : Nat) (ptr size : Nat) (stack : List Frame) (st : TState) :
    Nat × TState × List String :=
  if st.in_handler then (realRet, st, [])
  else
    let r := handleMalloc st.walk stack realRet size
    (realRet, ⟨false, r.1⟩, [handleFree ptr, r.2])

/-- Interposed `calloc(num, size)`.  `realRet` is the pointer returned by
`real_calloc(num, size)`; the recorded size is the size_t product
`num*size`, i.e. the arithmetic product reduced modulo 2^64. -/
def calloc (realRet : Nat) (num size : Nat) (stack : List Frame) (st : TState) :
    Nat × TState × List String :=
  if st.in_handler then (realRet, st, [])
  else
    let r := handleMalloc st.walk stack realRet ((num * size) % 2 ^ 64)
    (realRet, ⟨false, r.1⟩, [r.2])

/-- Interposed `posix_memalign(memptr, alignment, size)`.  `realRc` is
the int returned by the real call and `memptrOut` the value stored in
`*memptr` after it; the event is recorded from `*memptr` and `size`
whether or not `realRc` signals failure. -/
def posix_memalign (realRc : Int) (memptrOut : Nat) (alignment size : Nat)
    (stack : List Frame) (st : TState) : Int × TState × List String :=
  let _ := alignment
  if st.in_handler then (realRc, st, [])
  else
    let r := handleMalloc st.walk stack memptrOut size
    (realRc, ⟨false, r.1⟩, [r.2])

/-- Interposed `aligned_alloc(alignment, size)`. -/
def aligned_alloc (realRet : Nat) (alignment size : Nat) (stack : List Frame)
    (st : TState) : Nat × TState × List String :=
  let _ := alignment
  if st.in_handler then (realRet, st, [])
  else
    let r := handleMalloc st.walk stack realRet size
    (realRet, ⟨false, r.1⟩, [r.2])

/-- Interposed `valloc(size)`. -/
def valloc (realRet : Nat) (size : Nat) (stack : List Frame) (st : TState) :
    Nat × TState × List String :=
  if st.in_handler then (realRet, st, [])
  else
    let r := handleMalloc st.walk stack realRet size
    (realRet, ⟨false, r.1⟩, [r.2])

/-- Helper `env(variable)`: the environment variable's value, or the empty
string when unset.  The environment is modelled as the optional value of
the single variable DUMP_MALLOC_TRACE_OUTPUT. -/
def env (value : Option String) : String :=
  match value with
  | some v => v
  | none => ""

/-- The output file name built in the ThreadData constructor:
`env("DUMP_MALLOC_TRACE_OUTPUT") + to_string(getpid()) + '.' +
to_string(thread_id)`. -/
def outputFileName (baseEnv : Option String) (pid thread_id : Nat) : String :=
  env baseEnv ++ toString pid ++ "." ++ toString thread_id

/-- The mode string passed to fopen in the ThreadData constructor. -/
def fopen_mode : String :=
  "wa"

/-- The access kind an fopen mode string requests.  Per C11 7.21.5.3 (and
glibc, which inspects the first character and ignores an unrecognized
trailing character such as the 'a' in "wa"): a mode beginning with 'r'
opens for reading, 'w' opens for writing and truncates, 'a' opens for
appending. -/
inductive FopenKind where
  | read
  | write
  | append
deriving DecidableEq

/-- Kind requested by an fopen mode string (first character decides). -/
def fopenKind (mode : String) : Option FopenKind :=
  match mode.data with
  | 'r' :: _ => some FopenKind.read
  | 'w' :: _ => some FopenKind.write
  | 'a' :: _ => some FopenKind.append
  | _ => none

/-- Outcome of the ThreadData constructor's file-open step: on success
the session holds the opened file's name; on failure the constructor
prints `Failed to open output file: <name>` to stderr and calls
`exit(1)`, modelled as an error carrying the diagnostic and the exit
code. -/
def ThreadData_open (baseEnv : Option String) (pid thread_id : Nat)
    (openSucceeds : Bool) : Except (String × Nat) String :=
  let name := outputFileName baseEnv pid thread_id
  if openSucceeds then Except.ok name
  else Except.error ("Failed to open output file: " ++ name ++ "\n", 1)

/-- Allocation record format as the spec's wire-format sentence states
it: `+<decimal size>:<pointer in hex>` immediately followed by the
reference chain, terminated by a newline, with no other characters. -/
def specAllocRecord (size ptr : Nat) (chain : String) : String :=
  "+" ++ toString size ++ ":" ++ "0x" ++ hexStr ptr ++ chain ++ "\n"

/-- Free record format as the spec states it: `-<pointer in hex>` and a
newline. -/
def specFreeRecord (ptr : Nat) : String :=
  "-" ++ "0x" ++ hexStr ptr ++ "\n"

/-- Allocation record format amended to the code's fprintf behavior: the
size is rendered as a signed 64-bit decimal, the pointer via %p (0x-hex,
`(nil)` when null), and a single space separates the pointer from the
reference chain. -/
def specAllocRecordAmended (size ptr : Nat) (chain : String) : String :=
  "+" ++ decSigned64 size ++ ":" ++ ptrStr ptr ++ " " ++ chain ++ "\n"

/-- Free record format amended to the code's %p rendering. -/
def specFreeRecordAmended (ptr : Nat) : String :=
  "-" ++ ptrStr ptr ++ "\n"

/-- Cache well-formedness: every entry the walk loop ever creates has
`stop = !skip && ...`, so a skipped entry is never a stop entry. -/
def CacheWF (c : List (Nat × IPCacheEntry)) : Prop :=
  ∀ p ∈ c, p.2.skip = true → p.2.stop = false

/-- A cached entry for a frame's ip, when present, carries exactly the
classification the walk loop computes from that frame's symbol name. -/
def entryCoherent (c : List (Nat × IPCacheEntry)) (f : Frame) : Bool :=
  match cacheFind c f.ip with
  | none => true
  | some e =>
      e.skip == isSkipName f.name
        && e.stop == (!isSkipName f.name && isStopName f.name)

/-- Coherence of a cache with every frame of a stack. -/
def CacheCoherent (c : List (Nat × IPCacheEntry)) (stk : List Frame) : Prop :=
  ∀ f ∈ stk, entryCoherent c f = true

/-- Frames of a stack with equal instruction pointers resolve to equal
symbol names (code does not move during the process's lifetime). -/
def IpConsistent (stk : List Frame) : Prop :=
  ∀ f1 ∈ stk, ∀ f2 ∈ stk, f1.ip = f2.ip → f1.name = f2.name

instance (c : List (Nat × IPCacheEntry)) : Decidable (CacheWF c) := by
  unfold CacheWF
  infer_instance

instance (c : List (Nat × IPCacheEntry)) (stk : List Frame) :
    Decidable (CacheCoherent c stk) := by
  unfold CacheCoherent
  infer_instance

instance (stk : List Frame) : Decidable (IpConsistent stk) := by
  unfold IpConsistent
  infer_instance

/-- A chain element never stems from a skipped frame: a definition
record's symbol is not an allocation-operator name, and a reference
record's id is backed by a non-skipped cache entry. -/
def elemNotSkip (c : List (Nat × IPCacheEntry)) : ChainElem → Prop
  | .symdef _ _ name _ => isSkipName name = false
  | .ref id => ∃ ip e, cacheFind c ip = some e ∧ e.id = id ∧ e.skip = false

theorem printCallerLoop_nil (s : WalkState) : printCallerLoop s [] = (s, []) :=
  rfl

theorem printCallerLoop_cons (s : WalkState) (f : Frame) (rest : List Frame) :
    printCallerLoop s (f :: rest) =
      if frameStopped s f then (stepState s f, stepOut s f)
      else ((printCallerLoop (stepState s f) rest).1,
            stepOut s f ++ (printCallerLoop (stepState s f) rest).2) := by
  simp only [printCallerLoop, frameStopped, stepState, stepOut]
  cases h : cacheFind s.ipCache f.ip with
  | none =>
      by_cases hskip : isSkipName f.name = true
      · simp [hskip]
      · simp only [Bool.not_eq_true] at hskip
        by_cases hstop : isStopName f.name = true
        · simp [hskip, hstop]
        · simp only [Bool.not_eq_true] at hstop
          simp [hskip, hstop]
  | some e =>
      by_cases hstop : e.stop = true
      · simp [hstop]
      · simp only [Bool.not_eq_true] at hstop
        simp [hstop]

theorem cacheFind_stepState (s : WalkState) (f : Frame) (ip : Nat)
    (e : IPCacheEntry) (h : cacheFind s.ipCache ip = some e) :
    cacheFind (stepState s f).ipCache ip = some e := by
  unfold stepState
  cases hf : cacheFind s.ipCache f.ip with
  | none =>
      have hne : f.ip ≠ ip := by
        intro hEq
        rw [hEq, h] at hf
        exact Option.noConfusion hf
      simp [cacheFind, hne, h]
  | some e2 => simpa using h

theorem cacheFind_loop (s : WalkState) (stk : List Frame) (ip : Nat)
    (e : IPCacheEntry) (h : cacheFind s.ipCache ip = some e) :
    cacheFind (printCallerLoop s stk).1.ipCache ip = some e := by
  induction stk generalizing s with
  | nil => simpa [printCallerLoop] using h
  | cons f rest ih =>
      rw [printCallerLoop_cons]
      by_cases hstop : frameStopped s f = true
      · simpa [hstop] using cacheFind_stepState s f ip e h
      · simp only [Bool.not_eq_true] at hstop
        simpa [hstop] using ih (stepState s f) (cacheFind_stepState s f ip e h)

theorem cacheWF_stepState (s : WalkState) (f : Frame)
    (h : CacheWF s.ipCache) : CacheWF (stepState s f).ipCache := by
  unfold stepState
  cases hf : cacheFind s.ipCache f.ip with
  | none =>
      intro p hp
      rcases List.mem_cons.mp hp with hhead | htail
      · subst hhead
        intro hs
        simp only at hs ⊢
        rw [hs]
        simp
      · exact h p htail
  | some e => exact h

theorem isStopName_not_skip (n : String) (h : isStopName n = true) :
    isSkipName n = false := by
  have h2 : n = "main" ∨ n = "_GLOBAL__sub_I_main" := by
    simpa [isStopName] using h
  rcases h2 with h1 | h1
  · rw [h1]
    decide
  · rw [h1]
    decide

theorem entryCoherent_stepState (s : WalkState) (f g : Frame)
    (hname : g.ip = f.ip → g.name = f.name)
    (hc : entryCoherent s.ipCache g = true) :
    entryCoherent (stepState s f).ipCache g = true := by
  unfold stepState
  cases hf : cacheFind s.ipCache f.ip with
  | some e => exact hc
  | none =>
      unfold entryCoherent at hc ⊢
      by_cases hip : f.ip = g.ip
      · have hn : g.name = f.name := hname hip.symm
        simp [cacheFind, hip, hn]
      · simp only [cacheFind, if_neg hip]
        exact hc

/-- C1: Allocator transparency: every interception entry point returns to
its caller exactly the value/outcome produced by the corresponding true
allocator function, whether or not the reentrancy guard is engaged
(i.e. whether or not tracing occurred). -/
theorem allocator_transparency (mRet rRet cRet aRet vRet memOut : Nat)
    (pmRc : Int) (sz num align ptr : Nat) (stk : List Frame) (st : TState) :
    (malloc mRet sz stk st).1 = mRet
    ∧ (free ptr st).1 = ()
    ∧ (realloc rRet ptr sz stk st).1 = rRet
    ∧ (calloc cRet num sz stk st).1 = cRet
    ∧ (posix_memalign pmRc memOut align sz stk st).1 = pmRc
    ∧ (aligned_alloc aRet align sz stk st).1 = aRet
    ∧ (valloc vRet sz stk st).1 = vRet := by
  unfold malloc free realloc calloc posix_memalign aligned_alloc valloc
  by_cases h : st.in_handler = true <;> simp [h]

/-- C2: No recursive tracing: with the guard engaged an entry point
writes no record (but still returns the true allocator's result); with
the guard disengaged it writes exactly one record (two for realloc) and
leaves the guard in its disengaged state on return. -/
theorem no_recursive_tracing (mRet rRet cRet aRet vRet memOut : Nat)
    (pmRc : Int) (sz num align ptr : Nat) (stk : List Frame) (st : TState) :
    ((malloc mRet sz stk st).2.2.length = if st.in_handler then 0 else 1)
    ∧ ((free ptr st).2.2.length = if st.in_handler then 0 else 1)
    ∧ ((realloc rRet ptr sz stk st).2.2.length = if st.in_handler then 0 else 2)
    ∧ ((calloc cRet num sz stk st).2.2.length = if st.in_handler then 0 else 1)
    ∧ ((posix_memalign pmRc memOut align sz stk st).2.2.length
        = if st.in_handler then 0 else 1)
    ∧ ((aligned_alloc aRet align sz stk st).2.2.length
        = if st.in_handler then 0 else 1)
    ∧ ((valloc vRet sz stk st).2.2.length = if st.in_handler then 0 else 1)
    ∧ (malloc mRet sz stk st).1 = mRet
    ∧ (malloc mRet sz stk st).2.1.in_handler = st.in_handler
    ∧ (free ptr st).2.1.in_handler = st.in_handler
    ∧ (realloc rRet ptr sz stk st).2.1.in_handler = st.in_handler
    ∧ (calloc cRet num sz stk st).2.1.in_handler = st.in_handler
    ∧ (posix_memalign pmRc memOut align sz stk st).2.1.in_handler = st.in_handler
    ∧ (aligned_alloc aRet align sz stk st).2.1.in_handler = st.in_handler
    ∧ (valloc vRet sz stk st).2.1.in_handler = st.in_handler := by
  unfold malloc free realloc calloc posix_memalign aligned_alloc valloc
  by_cases h : st.in_handler = true
  · simp [h]
  · simp only [Bool.not_eq_true] at h
    simp [h]

/-- C3 counterexample: the claim's wire format (chain immediately after
the hex pointer, nothing in between) does not match the code: the
fprintf format string puts a space after the pointer; moreover the null
pointer is rendered `(nil)` rather than hex, and a size with the top bit
set is rendered as a negative signed decimal. -/
theorem alloc_wire_format_counterexample :
    (handleMalloc ⟨[], 0⟩ [] 0x7f0010 64).2
        ≠ specAllocRecord 64 0x7f0010 (chainStr (print_caller ⟨[], 0⟩ []).2)
    ∧ handleFree 0 ≠ specFreeRecord 0
    ∧ (handleMalloc ⟨[], 0⟩ [] 1 (2 ^ 63)).2
        ≠ specAllocRecord (2 ^ 63) 1 (chainStr (print_caller ⟨[], 0⟩ []).2) := by
  refine ⟨by decide, by decide, by decide⟩

/-- C3 (amended): every traced allocate writes '+', the size as a signed
64-bit decimal, ':', the pointer as rendered by %p (0x-prefixed hex, or
"(nil)" for null), a single space, the reference chain, and a newline;
every traced free writes '-', the %p-rendered pointer and a newline with
no reference chain. -/
theorem alloc_wire_format (w : WalkState) (stk : List Frame) (ptr sz p : Nat) :
    (handleMalloc w stk ptr sz).2
      = specAllocRecordAmended sz ptr (chainStr (print_caller w stk).2)
    ∧ handleFree p = specFreeRecordAmended p :=
  ⟨rfl, rfl⟩

/-- C4: Realloc decomposition: a reallocate call with the guard
disengaged records exactly two back-to-back events, a free of the old
pointer followed by an allocate of the returned pointer and new size
(also when the returned pointer equals the old one). -/
theorem realloc_decomposition (realRet ptr sz : Nat) (stk : List Frame)
    (st : TState) (h : st.in_handler = false) :
    (realloc realRet ptr sz stk st).2.2
      = [handleFree ptr, (handleMalloc st.walk stk realRet sz).2] := by
  simp [realloc, h]

/-- C4 witness: a concrete realloc whose true allocator returns the same
address as the old pointer still records the free/allocate pair. -/
theorem realloc_decomposition_witness :
    (realloc 5 5 32 [] ⟨false, ⟨[], 0⟩⟩).2.2 = ["-0x5\n", "+32:0x5 \n"] := by
  rw [realloc_decomposition 5 5 32 [] ⟨false, ⟨[], 0⟩⟩ rfl]
  decide

/-- C8 counterexample: the mode string the code passes to fopen is "wa",
which requests write (truncate) access, not append access. -/
theorem session_file_counterexample :
    fopenKind fopen_mode ≠ some FopenKind.append
    ∧ fopenKind fopen_mode = some FopenKind.write :=
  ⟨by decide, rfl⟩

/-- C8 (amended): on a thread's first traced call the session opens its
output file with fopen mode "wa" — i.e. for writing with truncation, not
append — under the name formed from the configured base path (the single
environment variable), the process id, '.', and the thread's sequence
number; if the open fails the failure is reported on standard error and
the process exits with status 1, which is non-zero. -/
theorem session_file_contract (base : Option String) (pid tid : Nat) :
    ThreadData_open base pid tid true
      = Except.ok (env base ++ toString pid ++ "." ++ toString tid)
    ∧ fopenKind fopen_mode = some FopenKind.write
    ∧ fopenKind fopen_mode ≠ some FopenKind.append
    ∧ ThreadData_open base pid tid false
      = Except.error ("Failed to open output file: "
          ++ (env base ++ toString pid ++ "." ++ toString tid) ++ "\n", 1)
    ∧ (1 : Nat) ≠ 0 := by
  refine ⟨rfl, rfl, by decide, rfl, by decide⟩

/-- C9: when the true posix_memalign fails (non-zero return) and the
guard is disengaged, the interposed posix_memalign still records an
allocation event from the out-parameter's value and the requested size,
and returns the failure code unchanged. -/
theorem posix_memalign_records_on_failure (rc : Int) (memOut align sz : Nat)
    (stk : List Frame) (st : TState) (hGuard : st.in_handler = false)
    (hFail : rc ≠ 0) :
    (posix_memalign rc memOut align sz stk st).1 = rc
    ∧ (posix_memalign rc memOut align sz stk st).2.2
        = [(handleMalloc st.walk stk memOut sz).2] := by
  simp [posix_memalign, hGuard]

/-- C9 witness: a failing posix_memalign (rc = 12, i.e. ENOMEM) with a
null out-parameter still records `+8:(nil) ` and returns 12. -/
theorem posix_memalign_records_on_failure_witness :
    (posix_memalign 12 0 16 8 [] ⟨false, ⟨[], 0⟩⟩).1 = 12
    ∧ (posix_memalign 12 0 16 8 [] ⟨false, ⟨[], 0⟩⟩).2.2 = ["+8:(nil) \n"] := by
  have h := posix_memalign_records_on_failure 12 0 16 8 [] ⟨false, ⟨[], 0⟩⟩ rfl
    (by decide)
  exact ⟨h.1, by rw [h.2]; decide⟩

/-- C10: the interposed calloc records one allocate event whose size is
the size_t product num*size, i.e. the arithmetic product reduced modulo
2^64; whenever the product overflows, the recorded size differs from the
product the caller requested. -/
theorem calloc_size_wraparound (realRet num sz : Nat) (stk : List Frame)
    (st : TState) (hGuard : st.in_handler = false) :
    (calloc realRet num sz stk st).2.2
      = [(handleMalloc st.walk stk realRet ((num * sz) % 2 ^ 64)).2]
    ∧ (2 ^ 64 ≤ num * sz → (num * sz) % 2 ^ 64 ≠ num * sz) := by
  constructor
  · simp [calloc, hGuard]
  · intro hle
    have hlt : (num * sz) % 2 ^ 64 < 2 ^ 64 := Nat.mod_lt _ (by positivity)
    omega

/-- C10 witness: calloc(2^32, 2^32 + 1) wraps: the recorded size is
2^32 = 4294967296, not the arithmetic product 2^64 + 2^32. -/
theorem calloc_size_wraparound_witness :
    (calloc 7 (2 ^ 32) (2 ^ 32 + 1) [] ⟨false, ⟨[], 0⟩⟩).2.2
      = ["+4294967296:0x7 \n"]
    ∧ 2 ^ 32 * (2 ^ 32 + 1) % 2 ^ 64 ≠ 2 ^ 32 * (2 ^ 32 + 1) := by
  have h := calloc_size_wraparound 7 (2 ^ 32) (2 ^ 32 + 1) [] ⟨false, ⟨[], 0⟩⟩ rfl
  exact ⟨by rw [h.1]; decide, h.2 (by decide)⟩

theorem stepState_none (s : WalkState) (f : Frame)
    (h : cacheFind s.ipCache f.ip = none) :
    stepState s f
      = ⟨(f.ip, ⟨s.next_cache_id, isSkipName f.name,
            !isSkipName f.name && isStopName f.name⟩) :: s.ipCache,
          s.next_cache_id + 1⟩ := by
  unfold stepState
  rw [h]

theorem stepState_some (s : WalkState) (f : Frame) (e : IPCacheEntry)
    (h : cacheFind s.ipCache f.ip = some e) : stepState s f = s := by
  unfold stepState
  rw [h]

theorem stepOut_none (s : WalkState) (f : Frame)
    (h : cacheFind s.ipCache f.ip = none) :
    stepOut s f = if isSkipName f.name then []
      else [ChainElem.symdef s.next_cache_id f.ip f.name f.offset] := by
  unfold stepOut
  rw [h]

theorem stepOut_some (s : WalkState) (f : Frame) (e : IPCacheEntry)
    (h : cacheFind s.ipCache f.ip = some e) :
    stepOut s f = if e.skip then [] else [ChainElem.ref e.id] := by
  unfold stepOut
  rw [h]

theorem frameSkipped_none (s : WalkState) (f : Frame)
    (h : cacheFind s.ipCache f.ip = none) :
    frameSkipped s f = isSkipName f.name := by
  unfold frameSkipped
  rw [h]

theorem frameSkipped_some (s : WalkState) (f : Frame) (e : IPCacheEntry)
    (h : cacheFind s.ipCache f.ip = some e) : frameSkipped s f = e.skip := by
  unfold frameSkipped
  rw [h]

theorem frameStopped_none (s : WalkState) (f : Frame)
    (h : cacheFind s.ipCache f.ip = none) :
    frameStopped s f = (!isSkipName f.name && isStopName f.name) := by
  unfold frameStopped
  rw [h]

theorem frameStopped_some (s : WalkState) (f : Frame) (e : IPCacheEntry)
    (h : cacheFind s.ipCache f.ip = some e) : frameStopped s f = e.stop := by
  unfold frameStopped
  rw [h]

theorem cacheFind_mem (c : List (Nat × IPCacheEntry)) (ip : Nat)
    (e : IPCacheEntry) (h : cacheFind c ip = some e) : (ip, e) ∈ c := by
  induction c with
  | nil => simp [cacheFind] at h
  | cons p rest ih =>
      obtain ⟨k, v⟩ := p
      by_cases hk : k = ip
      · subst hk
        simp [cacheFind] at h
        subst h
        exact List.mem_cons_self _ _
      · simp [cacheFind, hk] at h
        exact List.mem_cons_of_mem _ (ih h)

theorem stepOut_not_skip (s : WalkState) (f : Frame) :
    ∀ e ∈ stepOut s f, elemNotSkip (stepState s f).ipCache e := by
  intro e he
  cases hf : cacheFind s.ipCache f.ip with
  | none =>
      rw [stepOut_none s f hf] at he
      by_cases hskip : isSkipName f.name = true
      · simp [hskip] at he
      · simp only [Bool.not_eq_true] at hskip
        simp [hskip] at he
        subst he
        exact hskip
  | some e2 =>
      rw [stepOut_some s f e2 hf] at he
      by_cases hskip : e2.skip = true
      · simp [hskip] at he
      · simp only [Bool.not_eq_true] at hskip
        simp [hskip] at he
        subst he
        rw [stepState_some s f e2 hf]
        exact ⟨f.ip, e2, hf, rfl, hskip⟩

theorem elemNotSkip_mono (c1 c2 : List (Nat × IPCacheEntry))
    (hpres : ∀ ip e, cacheFind c1 ip = some e → cacheFind c2 ip = some e)
    (x : ChainElem) (h : elemNotSkip c1 x) : elemNotSkip c2 x := by
  cases x with
  | symdef id ip name offset => exact h
  | ref id =>
      obtain ⟨ip, e, hfind, hid, hskip⟩ := h
      exact ⟨ip, e, hpres ip e hfind, hid, hskip⟩

theorem elems_not_skip (stk : List Frame) (s : WalkState)
    (hwf : CacheWF s.ipCache) :
    ∀ e ∈ (printCallerLoop s stk).2,
      elemNotSkip (printCallerLoop s stk).1.ipCache e := by
  induction stk generalizing s with
  | nil => simp [printCallerLoop]
  | cons f rest ih =>
      rw [printCallerLoop_cons]
      by_cases hstop : frameStopped s f = true
      · simp only [hstop, if_true]
        exact stepOut_not_skip s f
      · simp only [Bool.not_eq_true] at hstop
        simp only [hstop, Bool.false_eq_true, if_false]
        intro e he
        rcases List.mem_append.mp he with hl | hr
        · exact elemNotSkip_mono (stepState s f).ipCache _
            (fun ip e2 h2 => cacheFind_loop (stepState s f) rest ip e2 h2) e
            (stepOut_not_skip s f e hl)
        · exact ih (stepState s f) (cacheWF_stepState s f hwf) e hr

theorem skip_continues (s : WalkState) (f : Frame) (rest : List Frame)
    (hwf : CacheWF s.ipCache) (hskip : frameSkipped s f = true) :
    printCallerLoop s (f :: rest) = printCallerLoop (stepState s f) rest := by
  cases hf : cacheFind s.ipCache f.ip with
  | none =>
      have hsk : isSkipName f.name = true := by
        rw [frameSkipped_none s f hf] at hskip
        exact hskip
      have hstop : frameStopped s f = false := by
        rw [frameStopped_none s f hf, hsk]
        rfl
      have hout : stepOut s f = [] := by
        rw [stepOut_none s f hf, if_pos hsk]
      rw [printCallerLoop_cons, hstop]
      simp [hout]
  | some e =>
      have hsk : e.skip = true := by
        rw [frameSkipped_some s f e hf] at hskip
        exact hskip
      have hstop : frameStopped s f = false := by
        rw [frameStopped_some s f e hf]
        exact hwf (f.ip, e) (cacheFind_mem _ _ _ hf) hsk
      have hout : stepOut s f = [] := by
        rw [stepOut_some s f e hf, if_pos hsk]
      rw [printCallerLoop_cons, hstop]
      simp [hout]

/-- C5: Skip-frame exclusion: a frame is classified skip exactly when
its resolved symbol is the mangled single-object or array operator-new
name; no element of any captured reference chain (definition or
reference record) stems from a skip-classified frame; and the walk
continues past a skipped frame to process the remaining outer frames. -/
theorem skip_frame_exclusion (s : WalkState) (stk : List Frame)
    (hwf : CacheWF s.ipCache) :
    (∀ n, isSkipName n = true ↔ (n = "_Znwm" ∨ n = "_Znam"))
    ∧ (∀ e ∈ (printCallerLoop s stk).2,
        elemNotSkip (printCallerLoop s stk).1.ipCache e)
    ∧ (∀ f rest, stk = f :: rest → frameSkipped s f = true →
        printCallerLoop s stk = printCallerLoop (stepState s f) rest) := by
  refine ⟨?_, elems_not_skip stk s hwf, ?_⟩
  · intro n
    simp [isSkipName]
  · intro f rest hstk hskip
    subst hstk
    exact skip_continues s f rest hwf hskip

/-- C5 witness: from an empty cache, a stack whose innermost frame is
operator new (_Znwm) followed by main: the walk's result equals the
walk continued past the skipped frame, and the chain holds only main's
definition record. -/
theorem skip_frame_exclusion_witness :
    printCallerLoop ⟨[], 0⟩ [⟨1, "_Znwm", 0⟩, ⟨2, "main", 0⟩]
      = printCallerLoop (stepState ⟨[], 0⟩ ⟨1, "_Znwm", 0⟩) [⟨2, "main", 0⟩]
    ∧ printCallerLoop ⟨[], 0⟩ [⟨1, "_Znwm", 0⟩, ⟨2, "main", 0⟩]
      = (⟨[(2, ⟨1, false, true⟩), (1, ⟨0, true, false⟩)], 2⟩,
          [ChainElem.symdef 1 2 "main" 0]) := by
  have h := (skip_frame_exclusion ⟨[], 0⟩ [⟨1, "_Znwm", 0⟩, ⟨2, "main", 0⟩]
    (by decide)).2.2 ⟨1, "_Znwm", 0⟩ [⟨2, "main", 0⟩] rfl (by decide)
  exact ⟨h, by decide⟩

theorem entryCoherent_some (c : List (Nat × IPCacheEntry)) (f : Frame)
    (e : IPCacheEntry) (hf : cacheFind c f.ip = some e)
    (hc : entryCoherent c f = true) :
    e.skip = isSkipName f.name
    ∧ e.stop = (!isSkipName f.name && isStopName f.name) := by
  unfold entryCoherent at hc
  rw [hf] at hc
  simp only [Bool.and_eq_true, beq_iff_eq] at hc
  exact hc

theorem stop_frame_step (s : WalkState) (g : Frame)
    (hc : entryCoherent s.ipCache g = true) (hg : isStopName g.name = true) :
    frameStopped s g = true ∧ stepOut s g ≠ [] := by
  have hns : isSkipName g.name = false := isStopName_not_skip g.name hg
  cases hf : cacheFind s.ipCache g.ip with
  | none =>
      rw [frameStopped_none s g hf, stepOut_none s g hf]
      simp [hns, hg]
  | some e =>
      obtain ⟨h1, h2⟩ := entryCoherent_some s.ipCache g e hf hc
      rw [frameStopped_some s g e hf, stepOut_some s g e hf]
      rw [h1, h2]
      simp [hns, hg]

theorem not_stop_frame_step (s : WalkState) (f : Frame)
    (hc : entryCoherent s.ipCache f = true) (hf0 : isStopName f.name = false) :
    frameStopped s f = false := by
  cases hf : cacheFind s.ipCache f.ip with
  | none =>
      rw [frameStopped_none s f hf, hf0]
      simp
  | some e =>
      obtain ⟨_, h2⟩ := entryCoherent_some s.ipCache f e hf hc
      rw [frameStopped_some s f e hf, h2, hf0]
      simp

theorem cacheCoherent_stepState (s : WalkState) (f : Frame) (stk : List Frame)
    (hcoh : CacheCoherent s.ipCache stk)
    (hname : ∀ g ∈ stk, g.ip = f.ip → g.name = f.name) :
    CacheCoherent (stepState s f).ipCache stk := by
  intro g hg
  exact entryCoherent_stepState s f g (hname g hg) (hcoh g hg)

theorem loop_stop_cut (a : List Frame) (s : WalkState) (b : List Frame)
    (g : Frame)
    (hcoh : CacheCoherent s.ipCache (a ++ g :: b))
    (hcons : IpConsistent (a ++ g :: b))
    (hg : isStopName g.name = true)
    (ha : ∀ f ∈ a, isStopName f.name = false) :
    printCallerLoop s (a ++ g :: b) = printCallerLoop s (a ++ [g])
    ∧ (printCallerLoop s (a ++ g :: b)).2 ≠ [] := by
  induction a generalizing s with
  | nil =>
      have hcg : entryCoherent s.ipCache g = true :=
        hcoh g (List.mem_cons_self g b)
      obtain ⟨hstop, hout⟩ := stop_frame_step s g hcg hg
      simp only [List.nil_append]
      rw [printCallerLoop_cons, printCallerLoop_cons, hstop]
      simpa using hout
  | cons f a2 ih =>
      have hmemf : f ∈ (f :: a2) ++ g :: b := List.mem_cons_self f _
      have hcf : entryCoherent s.ipCache f = true := hcoh f hmemf
      have hstop : frameStopped s f = false :=
        not_stop_frame_step s f hcf (ha f (List.mem_cons_self f a2))
      have hcoh2 : CacheCoherent (stepState s f).ipCache (a2 ++ g :: b) := by
        apply cacheCoherent_stepState
        · intro h hh
          exact hcoh h (List.mem_cons_of_mem f hh)
        · intro h hh hip
          exact hcons h (List.mem_cons_of_mem f hh) f hmemf hip
      have hcons2 : IpConsistent (a2 ++ g :: b) := by
        intro f1 h1 f2 h2 hip
        exact hcons f1 (List.mem_cons_of_mem f h1) f2 (List.mem_cons_of_mem f h2) hip
      have ha2 : ∀ h ∈ a2, isStopName h.name = false := by
        intro h hh
        exact ha h (List.mem_cons_of_mem f hh)
      obtain ⟨heq, hne⟩ := ih (stepState s f) hcoh2 hcons2 ha2
      constructor
      · simp only [List.cons_append]
        rw [printCallerLoop_cons, printCallerLoop_cons, hstop]
        simp only [Bool.false_eq_true, if_false]
        rw [heq]
      · simp only [List.cons_append]
        rw [printCallerLoop_cons, hstop]
        simp only [Bool.false_eq_true, if_false]
        intro hnil
        exact hne (List.append_eq_nil.mp hnil).2

/-- C6: Stop-frame termination and silent exhaustion: the walk's outcome
on a stack whose first program-entry frame is g is identical to its
outcome with every frame beyond g removed (so nothing past the first
stop frame is ever emitted), and g's own record is emitted (the chain is
non-empty); if the unwinder yields no frames, or fails while skipping the
two innermost tracer frames, print_caller returns silently with no
output. -/
theorem stop_frame_termination (s : WalkState) (a b : List Frame) (g : Frame)
    (hcoh : CacheCoherent s.ipCache (a ++ g :: b))
    (hcons : IpConsistent (a ++ g :: b))
    (hg : isStopName g.name = true)
    (ha : ∀ f ∈ a, isStopName f.name = false) :
    (printCallerLoop s (a ++ g :: b) = printCallerLoop s (a ++ [g])
      ∧ (printCallerLoop s (a ++ g :: b)).2 ≠ [])
    ∧ (∀ w : WalkState, print_caller w [] = (w, []))
    ∧ (∀ (w : WalkState) (f : Frame), print_caller w [f] = (w, [])) :=
  ⟨loop_stop_cut a s b g hcoh hcons hg ha, fun _ => rfl, fun _ _ => rfl⟩

/-- C6 witness: with an empty cache and the stack A, main, beyond — the
walk's result ignores the frame past main and emits a non-empty chain. -/
theorem stop_frame_termination_witness :
    printCallerLoop ⟨[], 0⟩ [⟨1, "A", 0⟩, ⟨2, "main", 4⟩, ⟨3, "beyond", 0⟩]
      = printCallerLoop ⟨[], 0⟩ [⟨1, "A", 0⟩, ⟨2, "main", 4⟩]
    ∧ (printCallerLoop ⟨[], 0⟩ [⟨1, "A", 0⟩, ⟨2, "main", 4⟩, ⟨3, "beyond", 0⟩]).2
      ≠ [] := by
  have h := (stop_frame_termination ⟨[], 0⟩ [⟨1, "A", 0⟩] [⟨3, "beyond", 0⟩]
    ⟨2, "main", 4⟩ (by decide) (by decide) (by decide) (by decide)).1
  exact h

/-- C7: Frame identifier stability and cached output form: a frame whose
instruction pointer is already cached is processed without touching the
cache or the global counter, and (when not skipped) emits exactly the
reference-only record with the identifier assigned at first observation;
a never-before-seen instruction pointer is assigned the current value of
the global counter (which is then incremented) and, if not skipped,
emits the full definition record; and entries, once assigned, survive
any further walking unchanged. -/
theorem frame_id_stability (s : WalkState) (f : Frame) (stk : List Frame) :
    (cacheFind s.ipCache f.ip = none →
      cacheFind (stepState s f).ipCache f.ip
          = some ⟨s.next_cache_id, isSkipName f.name,
              !isSkipName f.name && isStopName f.name⟩
      ∧ (stepState s f).next_cache_id = s.next_cache_id + 1
      ∧ (isSkipName f.name = false →
          stepOut s f = [ChainElem.symdef s.next_cache_id f.ip f.name f.offset]))
    ∧ (∀ e, cacheFind s.ipCache f.ip = some e →
        stepState s f = s
        ∧ (stepState s f).next_cache_id = s.next_cache_id
        ∧ (e.skip = false → stepOut s f = [ChainElem.ref e.id])
        ∧ (e.skip = true → stepOut s f = []))
    ∧ (∀ ip e, cacheFind s.ipCache ip = some e →
        cacheFind (printCallerLoop s stk).1.ipCache ip = some e) := by
  refine ⟨?_, ?_, ?_⟩
  · intro h
    refine ⟨?_, ?_, ?_⟩
    · rw [stepState_none s f h]
      simp [cacheFind]
    · rw [stepState_none s f h]
    · intro hskip
      rw [stepOut_none s f h, if_neg]
      rw [hskip]
      exact Bool.false_ne_true
  · intro e he
    refine ⟨stepState_some s f e he, ?_, ?_, ?_⟩
    · rw [stepState_some s f e he]
    · intro h0
      rw [stepOut_some s f e he, if_neg]
      rw [h0]
      exact Bool.false_ne_true
    · intro h1
      rw [stepOut_some s f e he, if_pos h1]
  · intro ip e he
    exact cacheFind_loop s stk ip e he

/-- C7 witness: an instruction pointer observed a second time (ip 7,
cached with id 0) leaves the state and counter untouched and emits the
reference-only record `0;`. -/
theorem frame_id_stability_witness :
    stepState ⟨[(7, ⟨0, false, false⟩)], 1⟩ ⟨7, "A", 1⟩
      = ⟨[(7, ⟨0, false, false⟩)], 1⟩
    ∧ stepOut ⟨[(7, ⟨0, false, false⟩)], 1⟩ ⟨7, "A", 1⟩ = [ChainElem.ref 0] := by
  have h := (frame_id_stability ⟨[(7, ⟨0, false, false⟩)], 1⟩ ⟨7, "A", 1⟩ []).2.1
    ⟨0, false, false⟩ (by decide)
  exact ⟨h.1, h.2.2.1 rfl⟩

end MallocTrace
